import Mathlib

/-!
Verification of the tablet shell ("tray") core against its source.

Shallow embedding of:
* `src/tablet/crates/gesture/src/lib.rs` — multitouch gesture engine;
* `src/tablet/crates/tray/src/ui.rs` + `framebuffer.rs` — draw/layout algebra;
* `src/tablet/crates/shared/src/lib.rs` — recursive process-signal supervisor;
* `src/tablet/crates/tray/src/main.rs` — orchestrator event loop.

Machine integers are modelled as `Nat`/`Int` with explicit two's-complement
wrapping where the Rust release build would wrap.  `f32` arithmetic on
`u16`-derived coordinates is modelled exactly over `ℚ`/`Int` (all inputs in the
claims are small integers, where `f32` is exact).  Rust closures
(`FnMut(&FingerHistory) -> Option<()>`) are modelled as pure predicates
`FingerHistory → Bool` (`true` = `Some(())`); `Result::unwrap` panics are
modelled as an aborted-traversal flag.
-/

namespace Tablet

/-! ## Gesture engine (gesture/src/lib.rs) -/

/-- `enum EventType { Press, Move, Release }`. -/
inductive EventType where
  | press
  | move
  | release
deriving DecidableEq, Repr

/-- `libremarkable::input::multitouch::Finger`: the fields the gesture crate
reads are `tracking_id: i32` and `pos: Point2<u16>`. -/
structure Finger where
  tracking_id : Int
  posX : Nat
  posY : Nat
deriving DecidableEq, Repr

/-- `struct FingerHistory(Vec<(EventType, Finger)>)`. -/
abbrev FingerHistory := List (EventType × Finger)

/-- `FingerHistory::finger_delta`: first position minus last position
(`first_pos - last_pos`, computed in `f32`; exact for `u16` inputs). -/
def finger_delta (fh : FingerHistory) : Option (Int × Int) := do
  let first ← fh.head?
  let last ← fh.getLast?
  pure ((first.2.posX : Int) - (last.2.posX : Int),
        (first.2.posY : Int) - (last.2.posY : Int))

/-- A gesture callback `FnMut(&FingerHistory) -> Option<()>`, modelled as a
pure predicate; `true` stands for `Some(())`. -/
abbrev GestureCb := FingerHistory → Bool

/-- `struct GestureRecognizer { active_fingers: BTreeMap<i32, FingerHistory>,
callbacks: Vec<...> }`.  The `BTreeMap` is modelled as an association list
sorted strictly by key, iterated in ascending key order. -/
structure GestureRecognizer where
  active_fingers : List (Int × FingerHistory)
  callbacks : List GestureCb

/-- `BTreeMap::insert` on the sorted association list (replaces an existing
entry with the same key). -/
def btInsert (k : Int) (v : FingerHistory) :
    List (Int × FingerHistory) → List (Int × FingerHistory)
  | [] => [(k, v)]
  | (k', v') :: rest =>
    if k < k' then (k, v) :: (k', v') :: rest
    else if k = k' then (k, v) :: rest
    else (k', v') :: btInsert k v rest

/-- `BTreeMap::remove` by key. -/
def btRemove (k : Int) (m : List (Int × FingerHistory)) :
    List (Int × FingerHistory) :=
  m.filter (fun p => p.1 ≠ k)

/-- `BTreeMap::get` by key. -/
def btLookup (k : Int) (m : List (Int × FingerHistory)) : Option FingerHistory :=
  (m.find? (fun p => p.1 = k)).map Prod.snd

/-- `self.active_fingers.entry(id).or_default()` followed by `push(sample)`:
append the sample to the finger's history, creating an empty history first if
the id has none. -/
def pushSample (k : Int) (s : EventType × Finger)
    (m : List (Int × FingerHistory)) : List (Int × FingerHistory) :=
  btInsert k ((btLookup k m).getD [] ++ [s]) m

/-- `GestureRecognizer::check_gesture`: visit active fingers in ascending id
order; a finger is finished when some callback (tried in order, stopping at
the first match) returns a match; finished fingers are removed after the scan
and their ids returned. -/
def check_gesture (r : GestureRecognizer) : GestureRecognizer × List Int :=
  let finished_gestures :=
    (r.active_fingers.filter
      (fun p => r.callbacks.any (fun cb => cb p.2))).map Prod.fst
  ({ r with
     active_fingers :=
       finished_gestures.foldl (fun m fid => btRemove fid m) r.active_fingers },
   finished_gestures)

/-- `GestureRecognizer::finger_press`: insert a fresh one-sample history
(replacing any stale one), then evaluate. -/
def finger_press (r : GestureRecognizer) (f : Finger) :
    GestureRecognizer × List Int :=
  check_gesture
    { r with
      active_fingers :=
        btInsert f.tracking_id [(EventType.press, f)] r.active_fingers }

/-- `GestureRecognizer::finger_release`: append (via `or_default`), evaluate,
then unconditionally remove the finger. -/
def finger_release (r : GestureRecognizer) (f : Finger) :
    GestureRecognizer × List Int :=
  let r :=
    { r with
      active_fingers :=
        pushSample f.tracking_id (EventType.release, f) r.active_fingers }
  let res := check_gesture r
  ({ res.1 with
     active_fingers := btRemove f.tracking_id res.1.active_fingers }, res.2)

/-- `GestureRecognizer::finger_move`: append (via `or_default`), then
evaluate. -/
def finger_move (r : GestureRecognizer) (f : Finger) :
    GestureRecognizer × List Int :=
  check_gesture
    { r with
      active_fingers :=
        pushSample f.tracking_id (EventType.move, f) r.active_fingers }

/-- `GestureRecognizer::reverse_callback_priority`. -/
def reverse_callback_priority (r : GestureRecognizer) : GestureRecognizer :=
  { r with callbacks := r.callbacks.reverse }

/-- One multitouch event, as dispatched by the orchestrator's `Input` arm. -/
inductive TouchEvent where
  | press (f : Finger)
  | move (f : Finger)
  | release (f : Finger)

/-- Dispatch one touch event to the engine. -/
def stepTouch (r : GestureRecognizer) : TouchEvent → GestureRecognizer × List Int
  | .press f => finger_press r f
  | .move f => finger_move r f
  | .release f => finger_release r f

/-- Run a sequence of touch events, recording the matched finger ids of every
evaluation. -/
def runEvents (r : GestureRecognizer) : List TouchEvent →
    GestureRecognizer × List (List Int)
  | [] => (r, [])
  | e :: es =>
    let (r', ids) := stepTouch r e
    let (r'', rest) := runEvents r' es
    (r'', ids :: rest)

/-- `u16` addition as compiled in release mode (wrapping). -/
def addU16 (a b : Nat) : Nat := (a + b) % 65536

/-- `recognize_starting_zone(position, size, next)`: gate on the *first*
sample; note the source's `start.x <= position.x + size.x` (inclusive) against
`start.y < position.y + size.y` (exclusive). -/
def recognize_starting_zone (posX posY sizeX sizeY : Nat)
    (next : GestureCb) : GestureCb := fun fh =>
  match fh.head? with
  | none => false
  | some start =>
    if posX ≤ start.2.posX ∧ start.2.posX ≤ addU16 posX sizeX ∧
       posY ≤ start.2.posY ∧ start.2.posY < addU16 posY sizeY then
      next fh
    else
      false

/-- `Vector2::<f32>::magnitude() < hysteresis`, exactly: a nonnegative
magnitude is strictly below `hysteresis` iff `hysteresis` is positive and the
squared magnitude is below `hysteresis²`; the rational comparison is carried
out on integers after clearing denominators so that it evaluates inside the
kernel (see `magnitude_lt_iff`). -/
def magnitude_lt (dx dy : Int) (hysteresis : ℚ) : Bool :=
  decide (0 < hysteresis.num ∧
    (dx ^ 2 + dy ^ 2) * (hysteresis.den : Int) ^ 2 < hysteresis.num ^ 2)

/-- `recognize_tap(hysteresis, callback)`: ≥ 2 samples, first = press,
last = release, `finger_delta().magnitude() < hysteresis`; yields the release
sample's position (the argument passed to `callback`) on a match. -/
def recognize_tap (hysteresis : ℚ) (fh : FingerHistory) : Option (Nat × Nat) :=
  if fh.length < 2 then none
  else
    match fh.head? with
    | some (EventType.press, _) =>
      match fh.getLast? with
      | some (EventType.release, finger) =>
        match finger_delta fh with
        | some d =>
          if magnitude_lt d.1 d.2 hysteresis then some (finger.posX, finger.posY)
          else none
        | none => none
      | _ => none
    | _ => none

/-- `recognize_press(callback)`: fires on a single-sample press-only history,
yielding the press position. -/
def recognize_press (fh : FingerHistory) : Option (Nat × Nat) :=
  match fh with
  | [(eventType, finger)] =>
    if eventType = EventType.press then some (finger.posX, finger.posY)
    else none
  | _ => none

/-- `recognize_release(callback)`: fires whenever the latest sample is a
release, yielding its position. -/
def recognize_release (fh : FingerHistory) : Option (Nat × Nat) :=
  match fh.getLast? with
  | some (eventType, finger) =>
    if eventType = EventType.release then some (finger.posX, finger.posY)
    else none
  | none => none

/-- `recognize_drag(callback)`: invoke the callback with `finger_delta`; the
gesture is complete exactly when the callback returns `true`. -/
def recognize_drag (callback : Int × Int → Bool) : GestureCb := fun fh =>
  match finger_delta fh with
  | some d => callback d
  | none => false

/-! ## Rect / cursor algebra and draw combinators (tray/src/ui.rs,
tray/src/framebuffer.rs, tray/src/rect.rs)

`mxcfb_rect` has `u32` fields; margins take `i32` arguments.  The `as i32` /
`as u32` casts and `i32` arithmetic of the source are modelled with explicit
two's-complement wrapping (release-build semantics). -/

/-- Interpret a `u32` value as the `i32` with the same bit pattern
(`as i32`). -/
def u32ToI32 (n : Nat) : Int :=
  if n % 4294967296 < 2147483648 then ((n % 4294967296 : Nat) : Int)
  else ((n % 4294967296 : Nat) : Int) - 4294967296

/-- Wrapping `i32` arithmetic result normalisation. -/
def wrap32 (z : Int) : Int := (z + 2147483648) % 4294967296 - 2147483648

/-- Interpret an `i32` value as the `u32` with the same bit pattern
(`as u32`). -/
def intToU32 (z : Int) : Nat := (z % 4294967296).toNat

/-- `mxcfb_rect { top, left, width, height : u32 }`. -/
structure MxcfbRect where
  top : Nat
  left : Nat
  width : Nat
  height : Nat
deriving DecidableEq, Repr

/-- `Empty for MxcfbRect`: `width <= 0 || height <= 0` on `u32` values. -/
def MxcfbRect.empty (r : MxcfbRect) : Bool := r.width = 0 ∨ r.height = 0

/-- `DrawContext { fb, rect, gesture_recognizer }`; the framebuffer is opaque
to the layout algebra and modelled by an arbitrary type. -/
structure DrawContext (α : Type) where
  fb : α
  rect : MxcfbRect
  gesture_recognizer : GestureRecognizer

/-- A draw node `Fn(DrawContext) -> DrawContext`. -/
abbrev DrawF (α : Type) := DrawContext α → DrawContext α

/-- `Then::draw`: apply `A`, then `B` against the cursor `A` produced. -/
def thenDraw (a b : DrawF α) : DrawF α := fun ctx => b (a ctx)

/-- `Overlay::draw`: apply `A`, snapshot the cursor, apply `B`, restore the
snapshot. -/
def overlayDraw (a b : DrawF α) : DrawF α := fun ctx =>
  let ctx := a ctx
  let rect := ctx.rect
  let ctx := b ctx
  { ctx with rect := rect }

/-- Free function `overlay(f)`: run `f`, ignoring any resulting changes to the
rect. -/
def overlayFn (f : DrawF α) : DrawF α := fun ctx =>
  let rect := ctx.rect
  let ctx := f ctx
  { ctx with rect := rect }

/-- `margin_top(margin)`: `top = (top as i32 + margin).max(0) as u32;
height = (height as i32 - margin).max(0) as u32`. -/
def margin_top (margin : Int) : DrawF α := fun ctx =>
  { ctx with
    rect :=
      { ctx.rect with
        top := intToU32 (max (wrap32 (u32ToI32 ctx.rect.top + margin)) 0),
        height := intToU32 (max (wrap32 (u32ToI32 ctx.rect.height - margin)) 0) } }

/-- `margin_left(margin)`: `left = (left as i32 + margin).max(0) as u32;
width = (width as i32 - margin).max(0) as u32`. -/
def margin_left (margin : Int) : DrawF α := fun ctx =>
  { ctx with
    rect :=
      { ctx.rect with
        left := intToU32 (max (wrap32 (u32ToI32 ctx.rect.left + margin)) 0),
        width := intToU32 (max (wrap32 (u32ToI32 ctx.rect.width - margin)) 0) } }

/-- `margin_right(margin)`: `width = (width as i32 - margin).max(0) as u32`. -/
def margin_right (margin : Int) : DrawF α := fun ctx =>
  { ctx with
    rect :=
      { ctx.rect with
        width := intToU32 (max (wrap32 (u32ToI32 ctx.rect.width - margin)) 0) } }

/-- `margin_bottom(margin)`: `height = (height as i32 - margin).max(0) as u32`. -/
def margin_bottom (margin : Int) : DrawF α := fun ctx =>
  { ctx with
    rect :=
      { ctx.rect with
        height := intToU32 (max (wrap32 (u32ToI32 ctx.rect.height - margin)) 0) } }

/-- Loop body of `horizontal`: cache the rect, draw the child, advance by the
consumed width plus spacing against the cached rect. -/
def horizontalStep (spacing : Int) (draw : DrawF α) : DrawF α := fun ctx =>
  let cached := ctx.rect
  let ctx := draw ctx
  let margin := wrap32 (u32ToI32 ctx.rect.width + spacing)
  let ctx := { ctx with rect := cached }
  margin_left margin ctx

/-- `horizontal(spacing, draws)`: draw children left-to-right, stopping early
once the rect becomes empty. -/
def horizontal (spacing : Int) : List (DrawF α) → DrawF α
  | [], ctx => ctx
  | draw :: draws, ctx =>
    let ctx := horizontalStep spacing draw ctx
    if ctx.rect.empty then ctx else horizontal spacing draws ctx

/-- Loop body of `horizontal_fixed`: overlay the child, then advance by the
fixed stride. -/
def horizontalFixedStep (element_width : Int) (draw : DrawF α) : DrawF α :=
  fun ctx =>
  let ctx := overlayFn draw ctx
  margin_left element_width ctx

/-- `horizontal_fixed(element_width, draws)`. -/
def horizontal_fixed (element_width : Int) : List (DrawF α) → DrawF α
  | [], ctx => ctx
  | draw :: draws, ctx =>
    let ctx := horizontalFixedStep element_width draw ctx
    if ctx.rect.empty then ctx else horizontal_fixed element_width draws ctx

/-- Loop body of `vertical`: cache the rect, draw the child, advance by the
consumed height plus spacing against the cached rect. -/
def verticalStep (spacing : Int) (draw : DrawF α) : DrawF α := fun ctx =>
  let cached := ctx.rect
  let ctx := draw ctx
  let margin := wrap32 (u32ToI32 ctx.rect.height + spacing)
  let ctx := { ctx with rect := cached }
  margin_top margin ctx

/-- `vertical(spacing, draws)`: draw children top-to-bottom, stopping early
once the rect becomes empty. -/
def vertical (spacing : Int) : List (DrawF α) → DrawF α
  | [], ctx => ctx
  | draw :: draws, ctx =>
    let ctx := verticalStep spacing draw ctx
    if ctx.rect.empty then ctx else vertical spacing draws ctx

/-- Loop body of `vertical_fixed`. -/
def verticalFixedStep (element_height : Int) (draw : DrawF α) : DrawF α :=
  fun ctx =>
  let ctx := overlayFn draw ctx
  margin_top element_height ctx

/-- `vertical_fixed(element_height, draws)`. -/
def vertical_fixed (element_height : Int) : List (DrawF α) → DrawF α
  | [], ctx => ctx
  | draw :: draws, ctx =>
    let ctx := verticalFixedStep element_height draw ctx
    if ctx.rect.empty then ctx else vertical_fixed element_height draws ctx

/-! ## Process lifecycle supervisor (shared/src/lib.rs)

`kill(pid, sig)` returns `Err(ESRCH)` for a process that has already exited;
the source calls `.unwrap()` on it, which panics.  The embedding threads an
`alive` predicate for the signal outcome and returns the emitted signal trace
together with an `ok` flag: `false` means the traversal aborted (panicked or,
for the fuel-indexed recursion, diverged). -/

/-- `Proc::stat`: the fields the supervisor reads. -/
structure ProcStat where
  process_id : Nat
  parent_process_id : Nat
  filename : String
deriving DecidableEq, Repr

/-- `Proc` (the `cmdline` field is unused by the recursive operations). -/
structure Proc where
  stat : ProcStat
deriving DecidableEq, Repr

/-- POSIX signals used by the supervisor. -/
inductive Signal where
  | SIGSTOP
  | SIGCONT
  | SIGKILL
deriving DecidableEq, Repr

/-- One delivered signal: (signal, target pid). -/
abbrev SigEvent := Signal × Nat

/-- `is_child_process_of(pid)`: `proc.stat.parent_process_id == pid`. -/
def is_child_process_of (pid : Nat) (p : Proc) : Bool :=
  p.stat.parent_process_id = pid

/-- Sequence the recursive calls over the children in table order, stopping at
the first aborted call (a panic unwinds through the `for` loop). -/
def runChildren (f : Proc → List SigEvent × Bool) :
    List Proc → List SigEvent × Bool
  | [] => ([], true)
  | c :: cs =>
    let r := f c
    if r.2 then
      let rest := runChildren f cs
      (r.1 ++ rest.1, rest.2)
    else (r.1, false)

/-- `stop_recursive(proc)`: `kill(pid, SIGSTOP).unwrap()`, then recurse into
the current children of `pid` from a fresh scan of the table. -/
def stop_recursive (table : List Proc) (alive : Nat → Bool) :
    Nat → Proc → List SigEvent × Bool
  | 0, _ => ([], false)
  | fuel + 1, p =>
    if alive p.stat.process_id then
      let rest :=
        runChildren (stop_recursive table alive fuel)
          (table.filter (is_child_process_of p.stat.process_id))
      ((Signal.SIGSTOP, p.stat.process_id) :: rest.1, rest.2)
    else ([], false)

/-- `cont_recursive(proc)`: recurse into the children first, then
`kill(pid, SIGCONT).unwrap()`. -/
def cont_recursive (table : List Proc) (alive : Nat → Bool) :
    Nat → Proc → List SigEvent × Bool
  | 0, _ => ([], false)
  | fuel + 1, p =>
    let rest :=
      runChildren (cont_recursive table alive fuel)
        (table.filter (is_child_process_of p.stat.process_id))
    if rest.2 then
      if alive p.stat.process_id then
        (rest.1 ++ [(Signal.SIGCONT, p.stat.process_id)], true)
      else (rest.1, false)
    else rest

/-- `kill_recursive(proc)`: recurse into the children first, then
`kill(pid, SIGKILL).unwrap()`. -/
def kill_recursive (table : List Proc) (alive : Nat → Bool) :
    Nat → Proc → List SigEvent × Bool
  | 0, _ => ([], false)
  | fuel + 1, p =>
    let rest :=
      runChildren (kill_recursive table alive fuel)
        (table.filter (is_child_process_of p.stat.process_id))
    if rest.2 then
      if alive p.stat.process_id then
        (rest.1 ++ [(Signal.SIGKILL, p.stat.process_id)], true)
      else (rest.1, false)
    else rest

/-- The descendants of `pid` reachable through the parent links of the table
within `fuel` generations: the process-tree reachability the supervisor
traverses. -/
def descendants (table : List Proc) : Nat → Nat → List Nat
  | 0, _ => []
  | fuel + 1, pid =>
    (table.filter (is_child_process_of pid)).flatMap
      (fun c => c.stat.process_id :: descendants table fuel c.stat.process_id)

/-! ## Orchestrator event loop (tray/src/main.rs)

The orchestrator consumes `MainEvent`s from one ordered MPSC channel, one at a
time; each arm runs to completion before the next receive.  Handlers are
modelled by the observable actions they perform. -/

/-- `enum MainEvent` (payloads irrelevant to ordering are dropped; a draft is
identified by a numeral). -/
inductive MainEvent where
  | LoadIcon
  | SetGestureRecognizer
  | SetDraw
  | Redraw
  | Input
  | Run (draft : Nat)
  | StopInput
  | StopRenderer
  | Exit
deriving DecidableEq, Repr

/-- Observable actions of the `MainLoop::run` arms. -/
inductive Action where
  | SetIcon
  | SwapRecognizer
  | Render
  | FeedRecognizer
  | RunDraft (draft : Nat)
  | BroadcastUngrab
  | BroadcastClearBuffer
  | BroadcastStop
  | JoinInputThreads
  | SendRenderExit
  | JoinRenderer
deriving DecidableEq, Repr

/-- The actions of one `MainLoop::run` match arm.  The `StopInput` arm
broadcasts `Ungrab`, `ClearBuffer` and `Stop` and then joins every device
thread, all before returning; the `StopRenderer` arm sends `Exit` to the
render thread and joins it. -/
def handleEvent : MainEvent → List Action
  | .LoadIcon => [.SetIcon]
  | .SetGestureRecognizer => [.SwapRecognizer]
  | .SetDraw => [.Render]
  | .Redraw => [.Render]
  | .Input => [.FeedRecognizer]
  | .Run d => [.RunDraft d]
  | .StopInput =>
    [.BroadcastUngrab, .BroadcastClearBuffer, .BroadcastStop, .JoinInputThreads]
  | .StopRenderer => [.SendRenderExit, .JoinRenderer]
  | .Exit => []

/-- `MainLoop::run`: handle queued events in arrival order, one at a time;
`Exit` breaks the loop. -/
def mainLoop : List MainEvent → List Action
  | [] => []
  | e :: es =>
    handleEvent e ++ (match e with | .Exit => [] | _ => mainLoop es)

/-- The events sent by the draft icon's tap callback in `draft_program`
(lines 656-662 of tray/src/main.rs), in send order on the one ordered
channel. -/
def draft_tap_sends (draft : Nat) : List MainEvent :=
  [.StopInput, .Run draft, .StopRenderer, .Exit]

/-! ## Spec-side definitions for refinement comparisons -/

/-- Modelled from the spec's words (C3): the half-open rectangle
`[position, position + size)` — outside means `x < position.x`, or
`x ≥ position.x + size.x`, or `y < position.y`, or `y ≥ position.y + size.y`. -/
def insideHalfOpenSpec (posX posY sizeX sizeY x y : Nat) : Prop :=
  posX ≤ x ∧ x < posX + sizeX ∧ posY ≤ y ∧ y < posY + sizeY

instance (posX posY sizeX sizeY x y : Nat) :
    Decidable (insideHalfOpenSpec posX posY sizeX sizeY x y) := by
  unfold insideHalfOpenSpec
  infer_instance

/-- The acceptance condition of the source's zone gate: x-bound inclusive,
y-bound exclusive (`start.x <= position.x + size.x`, `start.y < position.y +
size.y`). -/
def zoneAccepts (posX posY sizeX sizeY x y : Nat) : Prop :=
  posX ≤ x ∧ x ≤ addU16 posX sizeX ∧ posY ≤ y ∧ y < addU16 posY sizeY

instance (posX posY sizeX sizeY x y : Nat) :
    Decidable (zoneAccepts posX posY sizeX sizeY x y) := by
  unfold zoneAccepts
  infer_instance

/-! ## Helper lemmas -/

/-- The key set of the active-finger map. -/
def keys (m : List (Int × FingerHistory)) : List Int := m.map Prod.fst

/-- The strict key order of the sorted association list. -/
def keyLt (a b : Int × FingerHistory) : Prop := a.1 < b.1

lemma magnitude_lt_iff (dx dy : Int) (h : ℚ) :
    magnitude_lt dx dy h = true ↔
      0 < h ∧ (dx : ℚ) ^ 2 + (dy : ℚ) ^ 2 < h ^ 2 := by
  have hden : (0 : ℚ) < (h.den : ℚ) := by
    exact_mod_cast h.pos
  have hnum : (0 < h.num) ↔ (0 < h) := Rat.num_pos
  rw [magnitude_lt, decide_eq_true_iff]
  constructor
  · rintro ⟨h1, h2⟩
    refine ⟨hnum.mp h1, ?_⟩
    have hq : ((dx ^ 2 + dy ^ 2 : Int) : ℚ) * ((h.den : Int) : ℚ) ^ 2 <
        ((h.num : Int) : ℚ) ^ 2 := by
      exact_mod_cast h2
    have hh : h = (h.num : ℚ) / (h.den : ℚ) := (Rat.num_div_den h).symm
    rw [hh]
    rw [div_pow, lt_div_iff₀ (by positivity)]
    push_cast at hq ⊢
    linarith
  · rintro ⟨h1, h2⟩
    refine ⟨hnum.mpr h1, ?_⟩
    have hh : h = (h.num : ℚ) / (h.den : ℚ) := (Rat.num_div_den h).symm
    rw [hh, div_pow, lt_div_iff₀ (by positivity)] at h2
    have : ((dx ^ 2 + dy ^ 2 : Int) : ℚ) * ((h.den : Int) : ℚ) ^ 2 <
        ((h.num : Int) : ℚ) ^ 2 := by
      push_cast at h2 ⊢
      linarith
    exact_mod_cast this

/-! ## C6 — Overlay restores the rect -/

/-- C6: the Overlay composition restores, after drawing its subtree, exactly
the rect that was current before the overlaid subtree ran — for the `Overlay`
node the rect produced by `A` (snapshotted before `B`), and for the free
`overlay` function the incoming rect — no matter how the subtree mutates the
cursor; the subtree's other effects (the framebuffer) are kept. -/
theorem overlay_restores_rect (α : Type) (a b f : DrawF α) (ctx : DrawContext α) :
    (overlayDraw a b ctx).rect = (a ctx).rect ∧
    (overlayDraw a b ctx).fb = (b (a ctx)).fb ∧
    (overlayFn f ctx).rect = ctx.rect ∧
    (overlayFn f ctx).fb = (f ctx).fb :=
  ⟨rfl, rfl, rfl, rfl⟩

/-! ## C3 — zone gate -/

/-- C3 (counterexample): a history whose first sample has
`x = position.x + size.x` is outside the spec's half-open rectangle, yet the
gate invokes the inner recognizer and yields its match, because the source
compares the x upper bound with `<=`. -/
theorem zone_gate_halfopen_counterexample :
    ¬ insideHalfOpenSpec 0 0 10 10 10 5 ∧
    recognize_starting_zone 0 0 10 10 (fun _ => true)
      [(EventType.press, ⟨0, 10, 5⟩)] = true := by
  constructor
  · decide
  · decide

/-- C3 (amended): the gate's rectangle is inclusive in x and exclusive in y —
`recognize_starting_zone` yields no match and never invokes `inner` exactly
when the first sample violates `position.x ≤ x ≤ position.x + size.x ∧
position.y ≤ y < position.y + size.y`; when the first sample satisfies it the
gate defers entirely to `inner`, so later samples outside the rectangle do not
cause rejection by the gate; an empty history never matches. -/
theorem zone_gate_amended (posX posY sizeX sizeY : Nat)
    (next next' : GestureCb) (fh : FingerHistory) :
    (∀ s, fh.head? = some s →
      ¬ zoneAccepts posX posY sizeX sizeY s.2.posX s.2.posY →
      (recognize_starting_zone posX posY sizeX sizeY next fh = false ∧
       recognize_starting_zone posX posY sizeX sizeY next fh =
         recognize_starting_zone posX posY sizeX sizeY next' fh)) ∧
    (∀ s, fh.head? = some s →
      zoneAccepts posX posY sizeX sizeY s.2.posX s.2.posY →
      recognize_starting_zone posX posY sizeX sizeY next fh = next fh) ∧
    (fh.head? = none →
      recognize_starting_zone posX posY sizeX sizeY next fh = false) := by
  refine ⟨?_, ?_, ?_⟩
  · intro s hs hout
    rw [zoneAccepts] at hout
    constructor <;>
      simp [recognize_starting_zone, hs, hout]
  · intro s hs hin
    rw [zoneAccepts] at hin
    simp [recognize_starting_zone, hs, hin]
  · intro hs
    simp [recognize_starting_zone, hs]

/-- Witness for `zone_gate_amended`: position `(0,0)`, size `(10,10)`; a first
sample at `(3,4)` is accepted and the gate defers to the inner recognizer. -/
theorem zone_gate_amended_witness :
    ((([(EventType.press, ⟨0, 3, 4⟩)] : FingerHistory).head? =
        some (EventType.press, ⟨0, 3, 4⟩)) ∧
     zoneAccepts 0 0 10 10 3 4) ∧
    recognize_starting_zone 0 0 10 10 (fun _ => true)
        [(EventType.press, ⟨0, 3, 4⟩)] =
      (fun _ => true) [(EventType.press, (⟨0, 3, 4⟩ : Finger))] :=
  ⟨⟨rfl, by decide⟩,
    (zone_gate_amended 0 0 10 10 (fun _ => true) (fun _ => false)
        [(EventType.press, ⟨0, 3, 4⟩)]).2.1
      (EventType.press, ⟨0, 3, 4⟩) rfl (by decide)⟩

/-! ## C4 — tap recognizer -/

lemma recognize_tap_isSome_iff (hysteresis : ℚ) (fh : FingerHistory) :
    (recognize_tap hysteresis fh).isSome ↔
      2 ≤ fh.length ∧
      (∃ f, fh.head? = some (EventType.press, f)) ∧
      (∃ g, fh.getLast? = some (EventType.release, g)) ∧
      (∃ d, finger_delta fh = some d ∧ 0 < hysteresis ∧
        (d.1 : ℚ) ^ 2 + (d.2 : ℚ) ^ 2 < hysteresis ^ 2) := by
  rw [recognize_tap]
  by_cases hlen : fh.length < 2
  · rw [if_pos hlen]
    simp only [Option.isSome_none, Bool.false_eq_true, false_iff]
    intro h
    omega
  · rw [if_neg hlen]
    have hh2 : 2 ≤ fh.length := by omega
    rcases hh : fh.head? with _ | ⟨et, f⟩
    · rw [List.head?_eq_none_iff] at hh
      subst hh
      simp at hlen
    · have hhrw : fh.head? = some (et, f) := hh
      cases et with
      | press =>
        rcases hg : fh.getLast? with _ | ⟨et2, g⟩
        · rw [List.getLast?_eq_none_iff] at hg
          subst hg
          simp at hlen
        · have hgrw : fh.getLast? = some (et2, g) := hg
          have hd : finger_delta fh =
              some ((f.posX : Int) - g.posX, (f.posY : Int) - g.posY) := by
            rw [finger_delta, hhrw, hgrw]
            rfl
          cases et2 with
          | release =>
            by_cases hm : magnitude_lt ((f.posX : Int) - g.posX)
                ((f.posY : Int) - g.posY) hysteresis = true
            · have hmq := (magnitude_lt_iff _ _ hysteresis).mp hm
              simp [hd, hm, hmq.1, hh2]
              exact_mod_cast hmq.2
            · have hm' : magnitude_lt ((f.posX : Int) - g.posX)
                  ((f.posY : Int) - g.posY) hysteresis = false :=
                Bool.not_eq_true _ |>.mp hm
              simp [hd, hm', hh2]
              intro hpos
              by_contra hcon
              rw [not_le] at hcon
              apply hm
              rw [magnitude_lt_iff]
              refine ⟨hpos, ?_⟩
              push_cast
              exact hcon
          | press => simp
          | move => simp
      | move => simp
      | release => simp

lemma recognize_tap_pos (hysteresis : ℚ) (fh : FingerHistory) (p : Nat × Nat)
    (h : recognize_tap hysteresis fh = some p) :
    ∃ g, fh.getLast? = some (EventType.release, g) ∧ p = (g.posX, g.posY) := by
  rw [recognize_tap] at h
  by_cases hlen : fh.length < 2
  · rw [if_pos hlen] at h
    cases h
  · rw [if_neg hlen] at h
    rcases hh : fh.head? with _ | ⟨et, f⟩ <;> rw [hh] at h
    · simp at h
    · cases et with
      | press =>
        rcases hg : fh.getLast? with _ | ⟨et2, g⟩ <;> rw [hg] at h
        · simp at h
        · cases et2 with
          | release =>
            rcases hd : finger_delta fh with _ | d <;> rw [hd] at h
            · simp at h
            · obtain ⟨p1, p2⟩ := p
              by_cases hm : magnitude_lt d.1 d.2 hysteresis = true
              · simp [hm] at h
                exact ⟨g, rfl, by simp [h.1, h.2]⟩
              · have hm' : magnitude_lt d.1 d.2 hysteresis = false :=
                  Bool.not_eq_true _ |>.mp hm
                simp [hm'] at h
          | press => simp at h
          | move => simp at h
      | move => simp at h
      | release => simp at h

/-- C4: `recognize_tap(hysteresis, cb)` matches iff the history has at least 2
samples, the first sample is a press, the last a release, and the Euclidean
magnitude of (first position − last position) is strictly below `hysteresis`
(rendered exactly: `hysteresis` is positive and the squared displacement is
below `hysteresis²`); a squared displacement exactly equal to `hysteresis²`
does not match; and on a match the callback receives the release sample's
position. -/
theorem recognize_tap_spec (hysteresis : ℚ) (fh : FingerHistory) :
    ((recognize_tap hysteresis fh).isSome ↔
      2 ≤ fh.length ∧
      (∃ f, fh.head? = some (EventType.press, f)) ∧
      (∃ g, fh.getLast? = some (EventType.release, g)) ∧
      (∃ d, finger_delta fh = some d ∧ 0 < hysteresis ∧
        (d.1 : ℚ) ^ 2 + (d.2 : ℚ) ^ 2 < hysteresis ^ 2)) ∧
    (∀ d, finger_delta fh = some d →
      (d.1 : ℚ) ^ 2 + (d.2 : ℚ) ^ 2 = hysteresis ^ 2 →
      recognize_tap hysteresis fh = none) ∧
    (∀ p, recognize_tap hysteresis fh = some p →
      ∃ g, fh.getLast? = some (EventType.release, g) ∧ p = (g.posX, g.posY)) := by
  refine ⟨recognize_tap_isSome_iff hysteresis fh, ?_, recognize_tap_pos hysteresis fh⟩
  intro d hd heq
  rcases h : recognize_tap hysteresis fh with _ | p
  · rfl
  · exfalso
    have hs := (recognize_tap_isSome_iff hysteresis fh).mp (by rw [h]; rfl)
    obtain ⟨-, -, -, d', hd', -, hlt⟩ := hs
    rw [hd] at hd'
    obtain rfl := Option.some_inj.mp hd'
    rw [heq] at hlt
    exact lt_irrefl _ hlt

/-- Witness for `recognize_tap_spec`: the §8 scenario — press at `(10,10)`,
release at `(10,12)`, hysteresis `32` — fires at `(10,12)`; and a displacement
of magnitude exactly `32` (straight down 32 px) does not match. -/
theorem recognize_tap_spec_witness :
    recognize_tap 32
        [(EventType.press, ⟨0, 10, 10⟩), (EventType.release, ⟨0, 10, 12⟩)] =
      some (10, 12) ∧
    (finger_delta
        [(EventType.press, ⟨0, 10, 10⟩), (EventType.release, ⟨0, 10, 42⟩)] =
      some (0, -32) ∧
     ((0 : Int) : ℚ) ^ 2 + ((-32 : Int) : ℚ) ^ 2 = 32 ^ 2 ∧
     recognize_tap 32
        [(EventType.press, ⟨0, 10, 10⟩), (EventType.release, ⟨0, 10, 42⟩)] =
      none) := by
  constructor
  · have h := (recognize_tap_spec 32
      [(EventType.press, ⟨0, 10, 10⟩), (EventType.release, ⟨0, 10, 12⟩)]).1
    have hs : (recognize_tap 32
        [(EventType.press, ⟨0, 10, 10⟩), (EventType.release, ⟨0, 10, 12⟩)]).isSome := by
      refine h.mpr ⟨by decide, ⟨⟨0, 10, 10⟩, rfl⟩, ⟨⟨0, 10, 12⟩, rfl⟩,
        ⟨(0, -2), by decide, by norm_num, by norm_num⟩⟩
    obtain ⟨p, hp⟩ := Option.isSome_iff_exists.mp hs
    obtain ⟨g, hg, rfl⟩ := (recognize_tap_spec 32 _).2.2 p hp
    cases Option.some_inj.mp hg
    exact hp
  · refine ⟨by decide, by norm_num, ?_⟩
    exact (recognize_tap_spec 32 _).2.1 (0, -32) (by decide) (by norm_num)

/-! ## C5 — margins clamp at 0, list layouts halt on an empty rect -/

lemma wrap32_eq_self (z : Int) (h1 : -2147483648 ≤ z) (h2 : z < 2147483648) :
    wrap32 z = z := by
  rw [wrap32, Int.emod_eq_of_lt (by omega) (by omega)]
  omega

lemma u32ToI32_eq_self (n : Nat) (h : n < 2147483648) : u32ToI32 n = n := by
  rw [u32ToI32, if_pos (by omega)]
  congr 1
  omega

lemma margin_shrink_clamps (dim : Nat) (margin : Int) (h0 : 0 ≤ margin)
    (h31 : margin < 2147483648) (hlt : (dim : Int) < margin) :
    intToU32 (max (wrap32 (u32ToI32 dim - margin)) 0) = 0 := by
  have hd31 : dim < 2147483648 := by omega
  rw [u32ToI32_eq_self dim hd31]
  rw [wrap32_eq_self _ (by omega) (by omega)]
  rw [max_eq_right (by omega)]
  rfl

/-- C5: for every valid `i32` margin that is nonnegative and larger than the
cursor's current dimension, `margin_top` / `margin_bottom` clamp the height to
exactly 0 and `margin_left` / `margin_right` clamp the width to exactly 0
(never a negative value — the result is a natural number, and equals 0); and
the list layouts `horizontal`, `vertical`, `horizontal_fixed` and
`vertical_fixed` stop before drawing any further sibling once the cursor rect
has become empty: the result over `draw :: draws` no longer depends on
`draws`. -/
theorem margins_clamp_layouts_halt (α : Type) :
    (∀ (ctx : DrawContext α) (margin : Int),
      0 ≤ margin → margin < 2147483648 →
      (ctx.rect.height : Int) < margin →
      (margin_top margin ctx).rect.height = 0 ∧
      (margin_bottom margin ctx).rect.height = 0) ∧
    (∀ (ctx : DrawContext α) (margin : Int),
      0 ≤ margin → margin < 2147483648 →
      (ctx.rect.width : Int) < margin →
      (margin_left margin ctx).rect.width = 0 ∧
      (margin_right margin ctx).rect.width = 0) ∧
    (∀ (spacing : Int) (draw : DrawF α) (draws : List (DrawF α))
      (ctx : DrawContext α),
      (horizontalStep spacing draw ctx).rect.empty = true →
      horizontal spacing (draw :: draws) ctx = horizontalStep spacing draw ctx) ∧
    (∀ (spacing : Int) (draw : DrawF α) (draws : List (DrawF α))
      (ctx : DrawContext α),
      (verticalStep spacing draw ctx).rect.empty = true →
      vertical spacing (draw :: draws) ctx = verticalStep spacing draw ctx) ∧
    (∀ (element_width : Int) (draw : DrawF α) (draws : List (DrawF α))
      (ctx : DrawContext α),
      (horizontalFixedStep element_width draw ctx).rect.empty = true →
      horizontal_fixed element_width (draw :: draws) ctx =
        horizontalFixedStep element_width draw ctx) ∧
    (∀ (element_height : Int) (draw : DrawF α) (draws : List (DrawF α))
      (ctx : DrawContext α),
      (verticalFixedStep element_height draw ctx).rect.empty = true →
      vertical_fixed element_height (draw :: draws) ctx =
        verticalFixedStep element_height draw ctx) := by
  refine ⟨?_, ?_, ?_, ?_, ?_, ?_⟩
  · intro ctx margin h0 h31 hlt
    exact ⟨margin_shrink_clamps _ _ h0 h31 hlt, margin_shrink_clamps _ _ h0 h31 hlt⟩
  · intro ctx margin h0 h31 hlt
    exact ⟨margin_shrink_clamps _ _ h0 h31 hlt, margin_shrink_clamps _ _ h0 h31 hlt⟩
  · intro spacing draw draws ctx hempty
    rw [horizontal, if_pos hempty]
  · intro spacing draw draws ctx hempty
    rw [vertical, if_pos hempty]
  · intro element_width draw draws ctx hempty
    rw [horizontal_fixed, if_pos hempty]
  · intro element_height draw draws ctx hempty
    rw [vertical_fixed, if_pos hempty]

/-- Witness for `margins_clamp_layouts_halt`: a 10×10 rect with margin 25
clamps to height 0; a `vertical` layout whose first child empties the rect
returns after that child, with any further sibling list. -/
theorem margins_clamp_layouts_halt_witness :
    ((0 : Int) ≤ 25 ∧ (25 : Int) < 2147483648 ∧
      (((⟨(), ⟨0, 0, 10, 10⟩, ⟨[], []⟩⟩ : DrawContext Unit)).rect.height : Int) < 25) ∧
    (margin_top 25 (⟨(), ⟨0, 0, 10, 10⟩, ⟨[], []⟩⟩ : DrawContext Unit)).rect.height = 0 ∧
    (margin_bottom 25 (⟨(), ⟨0, 0, 10, 10⟩, ⟨[], []⟩⟩ : DrawContext Unit)).rect.height = 0 :=
  ⟨⟨by norm_num, by norm_num, by norm_num⟩,
    (margins_clamp_layouts_halt Unit).1 ⟨(), ⟨0, 0, 10, 10⟩, ⟨[], []⟩⟩ 25
      (by norm_num) (by norm_num) (by norm_num)⟩

/-! ## Association-list facts for the active-finger map -/

lemma mem_btInsert {p : Int × FingerHistory} {k : Int} {v : FingerHistory}
    {m : List (Int × FingerHistory)} :
    p ∈ btInsert k v m → p = (k, v) ∨ p ∈ m := by
  induction m with
  | nil =>
    intro h
    rw [btInsert] at h
    simp at h
    exact Or.inl h
  | cons a t ih =>
    intro h
    rw [btInsert] at h
    by_cases h1 : k < a.1
    · rw [if_pos h1] at h
      rcases List.mem_cons.mp h with h | h
      · exact Or.inl h
      · exact Or.inr h
    · rw [if_neg h1] at h
      by_cases h2 : k = a.1
      · rw [if_pos h2] at h
        rcases List.mem_cons.mp h with h | h
        · exact Or.inl h
        · exact Or.inr (List.mem_cons_of_mem a h)
      · rw [if_neg h2] at h
        rcases List.mem_cons.mp h with h | h
        · exact Or.inr (h ▸ List.mem_cons_self a t)
        · rcases ih h with h' | h'
          · exact Or.inl h'
          · exact Or.inr (List.mem_cons_of_mem a h')

lemma pairwise_btInsert (k : Int) (v : FingerHistory)
    (m : List (Int × FingerHistory)) :
    m.Pairwise keyLt → (btInsert k v m).Pairwise keyLt := by
  induction m with
  | nil =>
    intro _
    rw [btInsert]
    exact List.pairwise_singleton _ _
  | cons a t ih =>
    intro h
    rw [btInsert]
    rw [List.pairwise_cons] at h
    split
    · next hlt =>
      rw [List.pairwise_cons]
      refine ⟨?_, List.pairwise_cons.mpr h⟩
      intro p hp
      rcases List.mem_cons.mp hp with rfl | hp
      · exact hlt
      · exact lt_trans hlt (h.1 p hp)
    · split
      · next hne heq =>
        rw [List.pairwise_cons]
        refine ⟨?_, h.2⟩
        intro p hp
        have := h.1 p hp
        rw [keyLt] at this ⊢
        omega
      · next hne hne' =>
        have hgt : a.1 < k := by
          rcases lt_trichotomy k a.1 with h' | h' | h'
          · exact absurd h' hne
          · exact absurd h' hne'
          · exact h'
        rw [List.pairwise_cons]
        refine ⟨?_, ih h.2⟩
        intro p hp
        rcases mem_btInsert hp with rfl | hp
        · exact hgt
        · exact h.1 p hp

lemma not_mem_keys_btRemove_self (k : Int) (m : List (Int × FingerHistory)) :
    k ∉ keys (btRemove k m) := by
  intro h
  rw [keys, List.mem_map] at h
  obtain ⟨p, hp, rfl⟩ := h
  have h2 := (List.mem_filter.mp hp).2
  simp at h2

lemma keys_btRemove_subset (k x : Int) (m : List (Int × FingerHistory))
    (h : x ∉ keys m) : x ∉ keys (btRemove k m) := by
  intro hx
  apply h
  rw [keys, List.mem_map] at hx ⊢
  obtain ⟨p, hp, rfl⟩ := hx
  exact ⟨p, (List.mem_filter.mp hp).1, rfl⟩

lemma foldl_btRemove_absent (l : List Int) (m : List (Int × FingerHistory))
    (x : Int) : x ∉ keys m →
    x ∉ keys (l.foldl (fun m k => btRemove k m) m) := by
  induction l generalizing m with
  | nil => exact fun h => h
  | cons k t ih =>
    intro h
    rw [List.foldl_cons]
    exact ih _ (keys_btRemove_subset k x m h)

lemma foldl_btRemove_mem (l : List Int) (m : List (Int × FingerHistory))
    (x : Int) : x ∈ l →
    x ∉ keys (l.foldl (fun m k => btRemove k m) m) := by
  induction l generalizing m with
  | nil => intro h; cases h
  | cons k t ih =>
    intro h
    rw [List.foldl_cons]
    by_cases hk : x ∈ t
    · exact ih _ hk
    · have hxk : x = k := by
        rcases List.mem_cons.mp h with h' | h'
        · exact h'
        · exact absurd h' hk
      subst hxk
      exact foldl_btRemove_absent t _ x (not_mem_keys_btRemove_self x m)

lemma btLookup_btInsert_self (k : Int) (v : FingerHistory)
    (m : List (Int × FingerHistory)) : btLookup k (btInsert k v m) = some v := by
  induction m with
  | nil => simp [btInsert, btLookup]
  | cons a t ih =>
    rw [btInsert]
    split
    · simp [btLookup]
    · split
      · simp [btLookup]
      · next hne hne' =>
        have hak : ¬(a.1 = k) := fun h => hne' h.symm
        rw [btLookup, List.find?_cons_of_neg _ (by simpa using hak)]
        exact ih

lemma btLookup_eq_none (k : Int) (m : List (Int × FingerHistory)) :
    k ∉ keys m → btLookup k m = none := by
  induction m with
  | nil => intro _; rfl
  | cons a t ih =>
    intro h
    rw [keys, List.map_cons, List.mem_cons, not_or] at h
    rw [btLookup, List.find?_cons_of_neg _ (by simpa using fun he => h.1 he.symm)]
    exact ih h.2

lemma check_gesture_nodup (r : GestureRecognizer)
    (h : r.active_fingers.Pairwise keyLt) : (check_gesture r).2.Nodup := by
  have hf : (r.active_fingers.filter
      (fun p => r.callbacks.any (fun cb => cb p.2))).Pairwise keyLt :=
    h.sublist (List.filter_sublist _)
  have hm : ((r.active_fingers.filter
      (fun p => r.callbacks.any (fun cb => cb p.2))).map Prod.fst).Pairwise
        (· < ·) := List.pairwise_map.mpr hf
  exact List.Pairwise.imp (fun hlt => ne_of_lt hlt) hm

lemma check_gesture_removes (r : GestureRecognizer) :
    ∀ id ∈ (check_gesture r).2, id ∉ keys (check_gesture r).1.active_fingers :=
  fun _ hid => foldl_btRemove_mem _ _ _ hid

/-! ## C1 — firing and purge discipline -/

/-- An engine callback built from `recognize_release` (with a trivial user
callback), as the source wires recognizers into the engine. -/
def relCb : GestureCb := fun fh => (recognize_release fh).isSome

/-- C1 (counterexample): with a release recognizer installed, two
`finger_release` calls for finger id 0 cause two matching callback invocations
for that finger in one sequence — the second release re-opens a fresh history
via `or_default` and matches again — refuting "at most one matching callback
invocation for that finger over the whole sequence". -/
theorem gesture_refire_counterexample :
    ¬ ((runEvents ⟨[], [relCb]⟩
        [TouchEvent.release ⟨0, 5, 5⟩, TouchEvent.release ⟨0, 5, 5⟩]).2.countP
          (fun ids => ids.contains 0) ≤ 1) := by
  decide

/-- C1 (amended): each single press/move/release evaluation causes at most one
matching callback invocation per finger (the matched-id list of one call has
no duplicates), and a matched finger's history is purged immediately, so the
same history never matches twice; after `finger_release` the finger has no
active history regardless of outcome.  (Over a whole sequence a recognizer can
fire again for the same id, because a later move/release re-opens a fresh
history — see the counterexample.) -/
theorem gesture_match_purges (r : GestureRecognizer) (e : TouchEvent)
    (f : Finger) (hs : r.active_fingers.Pairwise keyLt) :
    (stepTouch r e).2.Nodup ∧
    (∀ id ∈ (stepTouch r e).2, id ∉ keys (stepTouch r e).1.active_fingers) ∧
    f.tracking_id ∉ keys (finger_release r f).1.active_fingers := by
  refine ⟨?_, ?_, not_mem_keys_btRemove_self _ _⟩
  · cases e with
    | press g => exact check_gesture_nodup _ (pairwise_btInsert _ _ _ hs)
    | move g => exact check_gesture_nodup _ (pairwise_btInsert _ _ _ hs)
    | release g => exact check_gesture_nodup _ (pairwise_btInsert _ _ _ hs)
  · cases e with
    | press g => exact check_gesture_removes _
    | move g => exact check_gesture_removes _
    | release g =>
      intro id hid
      exact keys_btRemove_subset _ _ _ (check_gesture_removes _ id hid)

/-- Witness for `gesture_match_purges`: the empty engine with a release
recognizer, receiving a release of finger 7. -/
theorem gesture_match_purges_witness :
    ((([] : List (Int × FingerHistory)).Pairwise keyLt) ∧
     (stepTouch ⟨[], [relCb]⟩ (TouchEvent.release ⟨7, 1, 2⟩)).2.Nodup ∧
     (∀ id ∈ (stepTouch ⟨[], [relCb]⟩ (TouchEvent.release ⟨7, 1, 2⟩)).2,
       id ∉ keys (stepTouch ⟨[], [relCb]⟩
         (TouchEvent.release ⟨7, 1, 2⟩)).1.active_fingers) ∧
     (7 : Int) ∉ keys (finger_release ⟨[], [relCb]⟩ ⟨7, 1, 2⟩).1.active_fingers) :=
  ⟨List.Pairwise.nil,
    gesture_match_purges ⟨[], [relCb]⟩ (TouchEvent.release ⟨7, 1, 2⟩)
      ⟨7, 1, 2⟩ List.Pairwise.nil⟩

/-! ## C10 — orphan move/release events open a fresh history -/

/-- C10: `finger_move` / `finger_release` for a finger id with no open history
silently open a new history containing only that sample (`or_default`): the
pushed entry for the id is exactly the one-sample history; with no callbacks
installed a move for an unknown id leaves that one-sample history active; and
a lone release with no preceding press creates a one-sample history on which a
release recognizer fires. -/
theorem orphan_touch_opens_fresh_history :
    (∀ (m : List (Int × FingerHistory)) (s : EventType × Finger) (k : Int),
      k ∉ keys m → btLookup k (pushSample k s m) = some [s]) ∧
    (∀ (m : List (Int × FingerHistory)) (f : Finger),
      f.tracking_id ∉ keys m →
      btLookup f.tracking_id ((finger_move ⟨m, []⟩ f).1.active_fingers) =
        some [(EventType.move, f)]) ∧
    (∀ f : Finger, (finger_release ⟨[], [relCb]⟩ f).2 = [f.tracking_id]) := by
  have hpush : ∀ (m : List (Int × FingerHistory)) (s : EventType × Finger)
      (k : Int), k ∉ keys m → btLookup k (pushSample k s m) = some [s] := by
    intro m s k hk
    rw [pushSample, btLookup_eq_none k m hk]
    exact btLookup_btInsert_self _ _ _
  refine ⟨hpush, ?_, ?_⟩
  · intro m f hk
    have hmap : (finger_move ⟨m, []⟩ f).1.active_fingers =
        pushSample f.tracking_id (EventType.move, f) m := by
      rw [finger_move, check_gesture]
      simp
    rw [hmap]
    exact hpush m _ _ hk
  · intro f
    rw [finger_release]
    simp [pushSample, btLookup, btInsert, check_gesture, relCb, recognize_release]

/-- Witness for `orphan_touch_opens_fresh_history`: finger id 7, fresh
engine. -/
theorem orphan_touch_opens_fresh_history_witness :
    ((7 : Int) ∉ keys ([] : List (Int × FingerHistory)) ∧
     btLookup 7 (pushSample 7 (EventType.move, ⟨7, 1, 2⟩) []) =
       some [(EventType.move, ⟨7, 1, 2⟩)]) ∧
    (finger_release ⟨[], [relCb]⟩ ⟨7, 1, 2⟩).2 = [(7 : Int)] :=
  ⟨⟨by decide,
    orphan_touch_opens_fresh_history.1 [] (EventType.move, ⟨7, 1, 2⟩) 7
      (by decide)⟩,
    orphan_touch_opens_fresh_history.2.2 ⟨7, 1, 2⟩⟩

/-! ## C7 — drag recognizer and the §8 bottom-zone scenario -/

/-- The drag callback of `drafts_panel` (tray/src/main.rs line 514):
`delta.y < -TAP_HYSTERESIS` with `TAP_HYSTERESIS = 32.0`. -/
def panelDragCb : Int × Int → Bool := fun delta => decide (delta.2 < -32)

/-- The §8 scenario: finger 1 presses at `(0,900)` and moves trending to
`(0,700)` inside the bottom zone. -/
def bottomSwipeScenario : List TouchEvent :=
  [.press ⟨1, 0, 900⟩, .move ⟨1, 0, 868⟩, .move ⟨1, 0, 800⟩,
   .move ⟨1, 0, 700⟩]

/-- C7 (counterexample): in the §8 scenario the displacement of the full
history is `(0, +200)` — `finger_delta` is first minus latest, so the upward
movement yields a *positive* Δy, not the claimed growing negative Δy — and
running the scenario against a drag recognizer with the panel's `Δy < −32`
completion check retires nothing: every evaluation returns no match. -/
theorem drag_scenario_counterexample :
    finger_delta
        [(EventType.press, ⟨1, 0, 900⟩), (EventType.move, ⟨1, 0, 868⟩),
         (EventType.move, ⟨1, 0, 800⟩), (EventType.move, ⟨1, 0, 700⟩)] =
      some (0, 200) ∧
    ¬ ((200 : Int) < 0) ∧
    (runEvents ⟨[], [recognize_drag panelDragCb]⟩ bottomSwipeScenario).2 =
      [[], [], [], []] := by
  decide

/-- C7 (amended): on every evaluation of a non-empty history,
`recognize_drag(cb)` computes the displacement as the first sample's position
minus the latest sample's position, invokes `cb` with it, and reports the
gesture complete exactly when `cb` returns `true`; in the §8 scenario the
deltas therefore grow *positive* — `(0,0), (0,32), (0,100), (0,200)` — and
the `Δy < −32` completion check never fires, so the finger is not retired
(downward movement of more than 32 px would be required). -/
theorem recognize_drag_spec (cb : Int × Int → Bool) (fh : FingerHistory)
    (s l : EventType × Finger)
    (hh : fh.head? = some s) (hl : fh.getLast? = some l) :
    recognize_drag cb fh =
      cb ((s.2.posX : Int) - l.2.posX, (s.2.posY : Int) - l.2.posY) ∧
    ([finger_delta [(EventType.press, ⟨1, 0, 900⟩)],
      finger_delta [(EventType.press, ⟨1, 0, 900⟩), (EventType.move, ⟨1, 0, 868⟩)],
      finger_delta [(EventType.press, ⟨1, 0, 900⟩), (EventType.move, ⟨1, 0, 868⟩),
        (EventType.move, ⟨1, 0, 800⟩)],
      finger_delta [(EventType.press, ⟨1, 0, 900⟩), (EventType.move, ⟨1, 0, 868⟩),
        (EventType.move, ⟨1, 0, 800⟩), (EventType.move, ⟨1, 0, 700⟩)]] =
      [some (0, 0), some (0, 32), some (0, 100), some (0, 200)]) ∧
    (runEvents ⟨[], [recognize_drag panelDragCb]⟩ bottomSwipeScenario).2 =
      [[], [], [], []] := by
  refine ⟨?_, by decide, by decide⟩
  have hd : finger_delta fh =
      some ((s.2.posX : Int) - l.2.posX, (s.2.posY : Int) - l.2.posY) := by
    rw [finger_delta, hh, hl]
    rfl
  simp [recognize_drag, hd]

/-- Witness for `recognize_drag_spec`: a two-sample history, drag callback
invoked with the first-minus-latest displacement `(0, 32)`. -/
theorem recognize_drag_spec_witness :
    ((([(EventType.press, ⟨1, 0, 900⟩), (EventType.move, ⟨1, 0, 868⟩)] :
        FingerHistory).head? = some (EventType.press, ⟨1, 0, 900⟩)) ∧
     (([(EventType.press, ⟨1, 0, 900⟩), (EventType.move, ⟨1, 0, 868⟩)] :
        FingerHistory).getLast? = some (EventType.move, ⟨1, 0, 868⟩))) ∧
    recognize_drag panelDragCb
        [(EventType.press, ⟨1, 0, 900⟩), (EventType.move, ⟨1, 0, 868⟩)] =
      panelDragCb (((0 : Nat) : Int) - (0 : Nat), ((900 : Nat) : Int) - (868 : Nat)) :=
  ⟨⟨rfl, rfl⟩,
    (recognize_drag_spec panelDragCb
        [(EventType.press, ⟨1, 0, 900⟩), (EventType.move, ⟨1, 0, 868⟩)]
        (EventType.press, ⟨1, 0, 900⟩) (EventType.move, ⟨1, 0, 868⟩)
        rfl rfl).1⟩

/-! ## Supervisor unfolding equations and trace lemmas -/

lemma stop_succ (table : List Proc) (alive : Nat → Bool) (fuel : Nat) (p : Proc) :
    stop_recursive table alive (fuel + 1) p =
      if alive p.stat.process_id then
        ((Signal.SIGSTOP, p.stat.process_id) ::
          (runChildren (stop_recursive table alive fuel)
            (table.filter (is_child_process_of p.stat.process_id))).1,
         (runChildren (stop_recursive table alive fuel)
            (table.filter (is_child_process_of p.stat.process_id))).2)
      else ([], false) := by
  rw [stop_recursive]

lemma cont_succ (table : List Proc) (alive : Nat → Bool) (fuel : Nat) (p : Proc) :
    cont_recursive table alive (fuel + 1) p =
      if (runChildren (cont_recursive table alive fuel)
          (table.filter (is_child_process_of p.stat.process_id))).2 then
        if alive p.stat.process_id then
          ((runChildren (cont_recursive table alive fuel)
            (table.filter (is_child_process_of p.stat.process_id))).1 ++
              [(Signal.SIGCONT, p.stat.process_id)], true)
        else
          ((runChildren (cont_recursive table alive fuel)
            (table.filter (is_child_process_of p.stat.process_id))).1, false)
      else
        runChildren (cont_recursive table alive fuel)
          (table.filter (is_child_process_of p.stat.process_id)) := by
  rw [cont_recursive]

lemma kill_succ (table : List Proc) (alive : Nat → Bool) (fuel : Nat) (p : Proc) :
    kill_recursive table alive (fuel + 1) p =
      if (runChildren (kill_recursive table alive fuel)
          (table.filter (is_child_process_of p.stat.process_id))).2 then
        if alive p.stat.process_id then
          ((runChildren (kill_recursive table alive fuel)
            (table.filter (is_child_process_of p.stat.process_id))).1 ++
              [(Signal.SIGKILL, p.stat.process_id)], true)
        else
          ((runChildren (kill_recursive table alive fuel)
            (table.filter (is_child_process_of p.stat.process_id))).1, false)
      else
        runChildren (kill_recursive table alive fuel)
          (table.filter (is_child_process_of p.stat.process_id)) := by
  rw [kill_recursive]

lemma runChildren_sound (f : Proc → List SigEvent × Bool) (l : List Proc)
    (hok : (runChildren f l).2 = true) :
    ∀ c ∈ l, (f c).2 = true ∧ ∀ x ∈ (f c).1, x ∈ (runChildren f l).1 := by
  induction l with
  | nil => intro c hc; cases hc
  | cons a t ih =>
    rw [runChildren] at hok
    intro c hc
    by_cases hfa : (f a).2 = true
    · rw [if_pos hfa] at hok
      have hok' : (runChildren f t).2 = true := hok
      rcases List.mem_cons.mp hc with rfl | hc
      · refine ⟨hfa, fun x hx => ?_⟩
        rw [runChildren, if_pos hfa]
        exact List.mem_append_left _ hx
      · obtain ⟨h1, h2⟩ := ih hok' c hc
        refine ⟨h1, fun x hx => ?_⟩
        rw [runChildren, if_pos hfa]
        exact List.mem_append_right _ (h2 x hx)
    · rw [if_neg hfa] at hok
      cases hok

lemma stop_mem (table : List Proc) (alive : Nat → Bool) :
    ∀ (n : Nat) (c : Proc) (d : Nat),
      (stop_recursive table alive (n + 1) c).2 = true →
      (d = c.stat.process_id ∨ d ∈ descendants table n c.stat.process_id) →
      (Signal.SIGSTOP, d) ∈ (stop_recursive table alive (n + 1) c).1 := by
  intro n
  induction n with
  | zero =>
    intro c d hok hd
    rw [stop_succ] at hok ⊢
    by_cases ha : alive c.stat.process_id = true
    · rw [if_pos ha] at hok ⊢
      rcases hd with rfl | hd
      · exact List.mem_cons_self _ _
      · rw [descendants] at hd
        simp at hd
    · rw [if_neg ha] at hok
      cases hok
  | succ m ih =>
    intro c d hok hd
    rw [stop_succ] at hok ⊢
    by_cases ha : alive c.stat.process_id = true
    · rw [if_pos ha] at hok ⊢
      have hok' : (runChildren (stop_recursive table alive (m + 1))
          (table.filter (is_child_process_of c.stat.process_id))).2 = true := hok
      rcases hd with rfl | hd
      · exact List.mem_cons_self _ _
      · rw [descendants] at hd
        obtain ⟨ch, hch, hd'⟩ := List.mem_flatMap.mp hd
        have hs := runChildren_sound _ _ hok' ch hch
        exact List.mem_cons_of_mem _
          (hs.2 _ (ih ch d hs.1 (List.mem_cons.mp hd')))
    · rw [if_neg ha] at hok
      cases hok

lemma cont_mem (table : List Proc) (alive : Nat → Bool) :
    ∀ (n : Nat) (c : Proc) (d : Nat),
      (cont_recursive table alive (n + 1) c).2 = true →
      (d = c.stat.process_id ∨ d ∈ descendants table n c.stat.process_id) →
      (Signal.SIGCONT, d) ∈ (cont_recursive table alive (n + 1) c).1 := by
  intro n
  induction n with
  | zero =>
    intro c d hok hd
    rw [cont_succ] at hok ⊢
    by_cases hrest : (runChildren (cont_recursive table alive 0)
        (table.filter (is_child_process_of c.stat.process_id))).2 = true
    · rw [if_pos hrest] at hok ⊢
      by_cases ha : alive c.stat.process_id = true
      · rw [if_pos ha] at hok ⊢
        rcases hd with rfl | hd
        · exact List.mem_append_right _ (List.mem_singleton.mpr rfl)
        · rw [descendants] at hd
          simp at hd
      · rw [if_neg ha] at hok
        cases hok
    · rw [if_neg hrest] at hok
      exact absurd hok hrest
  | succ m ih =>
    intro c d hok hd
    rw [cont_succ] at hok ⊢
    by_cases hrest : (runChildren (cont_recursive table alive (m + 1))
        (table.filter (is_child_process_of c.stat.process_id))).2 = true
    · rw [if_pos hrest] at hok ⊢
      by_cases ha : alive c.stat.process_id = true
      · rw [if_pos ha] at hok ⊢
        rcases hd with rfl | hd
        · exact List.mem_append_right _ (List.mem_singleton.mpr rfl)
        · rw [descendants] at hd
          obtain ⟨ch, hch, hd'⟩ := List.mem_flatMap.mp hd
          have hs := runChildren_sound _ _ hrest ch hch
          exact List.mem_append_left _
            (hs.2 _ (ih ch d hs.1 (List.mem_cons.mp hd')))
      · rw [if_neg ha] at hok
        cases hok
    · rw [if_neg hrest] at hok
      exact absurd hok hrest

lemma kill_mem (table : List Proc) (alive : Nat → Bool) :
    ∀ (n : Nat) (c : Proc) (d : Nat),
      (kill_recursive table alive (n + 1) c).2 = true →
      (d = c.stat.process_id ∨ d ∈ descendants table n c.stat.process_id) →
      (Signal.SIGKILL, d) ∈ (kill_recursive table alive (n + 1) c).1 := by
  intro n
  induction n with
  | zero =>
    intro c d hok hd
    rw [kill_succ] at hok ⊢
    by_cases hrest : (runChildren (kill_recursive table alive 0)
        (table.filter (is_child_process_of c.stat.process_id))).2 = true
    · rw [if_pos hrest] at hok ⊢
      by_cases ha : alive c.stat.process_id = true
      · rw [if_pos ha] at hok ⊢
        rcases hd with rfl | hd
        · exact List.mem_append_right _ (List.mem_singleton.mpr rfl)
        · rw [descendants] at hd
          simp at hd
      · rw [if_neg ha] at hok
        cases hok
    · rw [if_neg hrest] at hok
      exact absurd hok hrest
  | succ m ih =>
    intro c d hok hd
    rw [kill_succ] at hok ⊢
    by_cases hrest : (runChildren (kill_recursive table alive (m + 1))
        (table.filter (is_child_process_of c.stat.process_id))).2 = true
    · rw [if_pos hrest] at hok ⊢
      by_cases ha : alive c.stat.process_id = true
      · rw [if_pos ha] at hok ⊢
        rcases hd with rfl | hd
        · exact List.mem_append_right _ (List.mem_singleton.mpr rfl)
        · rw [descendants] at hd
          obtain ⟨ch, hch, hd'⟩ := List.mem_flatMap.mp hd
          have hs := runChildren_sound _ _ hrest ch hch
          exact List.mem_append_left _
            (hs.2 _ (ih ch d hs.1 (List.mem_cons.mp hd')))
      · rw [if_neg ha] at hok
        cases hok
    · rw [if_neg hrest] at hok
      exact absurd hok hrest

/-! ## C2 — signal ordering of the recursive supervisor operations -/

/-- C2: whenever a traversal completes, `stop_recursive` signals SIGSTOP to
the root strictly before any of its descendants (the root's signal is the
head of the emitted trace and every descendant's signal is in the tail);
`cont_recursive` signals SIGCONT to every descendant before the root (the
root's signal is the final element and every descendant's signal is in the
front part); `kill_recursive` likewise signals SIGKILL to every descendant
before the root.  Descendants are those reachable through the parent links of
the scanned table within the traversal's fuel. -/
theorem supervisor_signal_order (table : List Proc) (alive : Nat → Bool)
    (n : Nat) (p : Proc) :
    ((stop_recursive table alive (n + 1) p).2 = true →
      ∃ tail, (stop_recursive table alive (n + 1) p).1 =
          (Signal.SIGSTOP, p.stat.process_id) :: tail ∧
        ∀ d ∈ descendants table n p.stat.process_id,
          (Signal.SIGSTOP, d) ∈ tail) ∧
    ((cont_recursive table alive (n + 1) p).2 = true →
      ∃ front, (cont_recursive table alive (n + 1) p).1 =
          front ++ [(Signal.SIGCONT, p.stat.process_id)] ∧
        ∀ d ∈ descendants table n p.stat.process_id,
          (Signal.SIGCONT, d) ∈ front) ∧
    ((kill_recursive table alive (n + 1) p).2 = true →
      ∃ front, (kill_recursive table alive (n + 1) p).1 =
          front ++ [(Signal.SIGKILL, p.stat.process_id)] ∧
        ∀ d ∈ descendants table n p.stat.process_id,
          (Signal.SIGKILL, d) ∈ front) := by
  refine ⟨?_, ?_, ?_⟩
  · intro hok
    rw [stop_succ] at hok ⊢
    by_cases ha : alive p.stat.process_id = true
    · rw [if_pos ha] at hok ⊢
      refine ⟨_, rfl, ?_⟩
      intro d hd
      cases n with
      | zero =>
        rw [descendants] at hd
        simp at hd
      | succ m =>
        rw [descendants] at hd
        obtain ⟨ch, hch, hd'⟩ := List.mem_flatMap.mp hd
        have hok' : (runChildren (stop_recursive table alive (m + 1))
            (table.filter (is_child_process_of p.stat.process_id))).2 = true := hok
        have hs := runChildren_sound _ _ hok' ch hch
        exact hs.2 _ (stop_mem table alive m ch d hs.1 (List.mem_cons.mp hd'))
    · rw [if_neg ha] at hok
      cases hok
  · intro hok
    rw [cont_succ] at hok ⊢
    by_cases hrest : (runChildren (cont_recursive table alive n)
        (table.filter (is_child_process_of p.stat.process_id))).2 = true
    · rw [if_pos hrest] at hok ⊢
      by_cases ha : alive p.stat.process_id = true
      · rw [if_pos ha] at hok ⊢
        refine ⟨_, rfl, ?_⟩
        intro d hd
        cases n with
        | zero =>
          rw [descendants] at hd
          simp at hd
        | succ m =>
          rw [descendants] at hd
          obtain ⟨ch, hch, hd'⟩ := List.mem_flatMap.mp hd
          have hs := runChildren_sound _ _ hrest ch hch
          exact hs.2 _ (cont_mem table alive m ch d hs.1 (List.mem_cons.mp hd'))
      · rw [if_neg ha] at hok
        cases hok
    · rw [if_neg hrest] at hok
      exact absurd hok hrest
  · intro hok
    rw [kill_succ] at hok ⊢
    by_cases hrest : (runChildren (kill_recursive table alive n)
        (table.filter (is_child_process_of p.stat.process_id))).2 = true
    · rw [if_pos hrest] at hok ⊢
      by_cases ha : alive p.stat.process_id = true
      · rw [if_pos ha] at hok ⊢
        refine ⟨_, rfl, ?_⟩
        intro d hd
        cases n with
        | zero =>
          rw [descendants] at hd
          simp at hd
        | succ m =>
          rw [descendants] at hd
          obtain ⟨ch, hch, hd'⟩ := List.mem_flatMap.mp hd
          have hs := runChildren_sound _ _ hrest ch hch
          exact hs.2 _ (kill_mem table alive m ch d hs.1 (List.mem_cons.mp hd'))
      · rw [if_neg ha] at hok
        cases hok
    · rw [if_neg hrest] at hok
      exact absurd hok hrest

/-- A synthetic three-level process tree: pid 1 (root, parent 0) with children
2 and 3, pid 2 with child 4. -/
def treeTable : List Proc :=
  [⟨⟨1, 0, "root"⟩⟩, ⟨⟨2, 1, "childA"⟩⟩, ⟨⟨3, 1, "childB"⟩⟩,
   ⟨⟨4, 2, "grandchild"⟩⟩]

/-- Witness for `supervisor_signal_order` on the synthetic 3-level tree with
every process alive. -/
theorem supervisor_signal_order_witness :
    ((stop_recursive treeTable (fun _ => true) 4 ⟨⟨1, 0, "root"⟩⟩).2 = true ∧
     ∃ tail, (stop_recursive treeTable (fun _ => true) 4 ⟨⟨1, 0, "root"⟩⟩).1 =
         (Signal.SIGSTOP, 1) :: tail ∧
       ∀ d ∈ descendants treeTable 3 1, (Signal.SIGSTOP, d) ∈ tail) ∧
    ((cont_recursive treeTable (fun _ => true) 4 ⟨⟨1, 0, "root"⟩⟩).2 = true ∧
     ∃ front, (cont_recursive treeTable (fun _ => true) 4 ⟨⟨1, 0, "root"⟩⟩).1 =
         front ++ [(Signal.SIGCONT, 1)] ∧
       ∀ d ∈ descendants treeTable 3 1, (Signal.SIGCONT, d) ∈ front) :=
  ⟨⟨by decide,
    (supervisor_signal_order treeTable (fun _ => true) 3 ⟨⟨1, 0, "root"⟩⟩).1
      (by decide)⟩,
   ⟨by decide,
    (supervisor_signal_order treeTable (fun _ => true) 3 ⟨⟨1, 0, "root"⟩⟩).2.1
      (by decide)⟩⟩

/-! ## C8 — signalling an already-exited process -/

/-- C8 (counterexample): signalling a process that has already exited is not
tolerated — `kill(...).unwrap()` panics.  With pid 42 already dead, all three
recursive operations abort the traversal (the ok flag is `false`), refuting
"never propagated to the caller or allowed to abort the traversal". -/
theorem sig_dead_counterexample :
    (stop_recursive [⟨⟨42, 1, "dead"⟩⟩] (fun _ => false) 1 ⟨⟨42, 1, "dead"⟩⟩).2 =
      false ∧
    (cont_recursive [⟨⟨42, 1, "dead"⟩⟩] (fun _ => false) 1 ⟨⟨42, 1, "dead"⟩⟩).2 =
      false ∧
    (kill_recursive [⟨⟨42, 1, "dead"⟩⟩] (fun _ => false) 1 ⟨⟨42, 1, "dead"⟩⟩).2 =
      false := by
  decide

/-- C8 (amended): signalling a process that has already exited makes the
recursive operation panic — the `kill` error is unwrapped, not handled by any
fallback — aborting the traversal and propagating to the caller: a dead root
makes `stop_recursive` abort before emitting any signal, and makes
`cont_recursive` / `kill_recursive` abort (after their children ran). -/
theorem sig_dead_panics (table : List Proc) (alive : Nat → Bool) (n : Nat)
    (p : Proc) (h : alive p.stat.process_id = false) :
    stop_recursive table alive (n + 1) p = ([], false) ∧
    (cont_recursive table alive (n + 1) p).2 = false ∧
    (kill_recursive table alive (n + 1) p).2 = false := by
  have h' : ¬ (alive p.stat.process_id = true) := by
    rw [h]
    exact Bool.false_ne_true
  refine ⟨?_, ?_, ?_⟩
  · rw [stop_succ, if_neg h']
  · rw [cont_succ]
    by_cases hrest : (runChildren (cont_recursive table alive n)
        (table.filter (is_child_process_of p.stat.process_id))).2 = true
    · rw [if_pos hrest, if_neg h']
    · rw [if_neg hrest]
      exact Bool.not_eq_true _ |>.mp hrest
  · rw [kill_succ]
    by_cases hrest : (runChildren (kill_recursive table alive n)
        (table.filter (is_child_process_of p.stat.process_id))).2 = true
    · rw [if_pos hrest, if_neg h']
    · rw [if_neg hrest]
      exact Bool.not_eq_true _ |>.mp hrest

/-- Witness for `sig_dead_panics`: the dead pid 42 as root. -/
theorem sig_dead_panics_witness :
    ((fun _ => false : Nat → Bool) 42 = false) ∧
    stop_recursive [⟨⟨42, 1, "dead"⟩⟩] (fun _ => false) 1 ⟨⟨42, 1, "dead"⟩⟩ =
      ([], false) ∧
    (cont_recursive [⟨⟨42, 1, "dead"⟩⟩] (fun _ => false) 1 ⟨⟨42, 1, "dead"⟩⟩).2 =
      false ∧
    (kill_recursive [⟨⟨42, 1, "dead"⟩⟩] (fun _ => false) 1 ⟨⟨42, 1, "dead"⟩⟩).2 =
      false :=
  ⟨rfl, sig_dead_panics [⟨⟨42, 1, "dead"⟩⟩] (fun _ => false) 0 ⟨⟨42, 1, "dead"⟩⟩ rfl⟩

/-! ## C9 — stop-input completes before the draft launch -/

lemma mainLoop_cons_ne_exit (e : MainEvent) (es : List MainEvent)
    (h : e ≠ MainEvent.Exit) :
    mainLoop (e :: es) = handleEvent e ++ mainLoop es := by
  cases e
  case Exit => exact absurd rfl h
  all_goals rfl

lemma mainLoop_append (l es : List MainEvent) (h : MainEvent.Exit ∉ l) :
    mainLoop (l ++ es) = l.flatMap handleEvent ++ mainLoop es := by
  induction l with
  | nil => simp
  | cons e t ih =>
    rw [List.cons_append,
      mainLoop_cons_ne_exit e _ (fun he => h (he ▸ List.mem_cons_self e t)),
      ih (fun ht => h (List.mem_cons_of_mem _ ht))]
    simp

/-- C9: in every run of the orchestrator loop in which a launch gesture fires,
the stop-input step fully completes — ungrab, clear-buffer and stop are
broadcast and the device threads joined — strictly before the draft-launch
`Run` event is processed: the tap callback enqueues `StopInput` before
`Run d` before `StopRenderer` before `Exit` on the one ordered channel
(`draft_tap_sends`), and the loop handles one event at a time, so however
other producers' events (which are not `Exit`) interleave between them, the
action trace contains the complete stop-input block before the launch, the
renderer shutdown after the launch, and `Exit` ends the loop (events queued
after it are never handled). -/
theorem stop_input_before_run (pre mid1 mid2 mid3 rest : List MainEvent)
    (d : Nat) (h0 : MainEvent.Exit ∉ pre) (h1 : MainEvent.Exit ∉ mid1)
    (h2 : MainEvent.Exit ∉ mid2) (h3 : MainEvent.Exit ∉ mid3) :
    draft_tap_sends d =
      [MainEvent.StopInput, MainEvent.Run d, MainEvent.StopRenderer,
       MainEvent.Exit] ∧
    mainLoop (pre ++ MainEvent.StopInput ::
        (mid1 ++ MainEvent.Run d ::
          (mid2 ++ MainEvent.StopRenderer ::
            (mid3 ++ MainEvent.Exit :: rest)))) =
      pre.flatMap handleEvent ++
      ([Action.BroadcastUngrab, Action.BroadcastClearBuffer,
        Action.BroadcastStop, Action.JoinInputThreads] ++
       (mid1.flatMap handleEvent ++
        ([Action.RunDraft d] ++
         (mid2.flatMap handleEvent ++
          ([Action.SendRenderExit, Action.JoinRenderer] ++
           mid3.flatMap handleEvent))))) := by
  refine ⟨rfl, ?_⟩
  rw [mainLoop_append pre _ h0,
    mainLoop_cons_ne_exit _ _ (fun he => MainEvent.noConfusion he),
    mainLoop_append mid1 _ h1,
    mainLoop_cons_ne_exit _ _ (fun he => MainEvent.noConfusion he),
    mainLoop_append mid2 _ h2,
    mainLoop_cons_ne_exit _ _ (fun he => MainEvent.noConfusion he),
    mainLoop_append mid3 _ h3]
  have hexit : mainLoop (MainEvent.Exit :: rest) = [] := rfl
  rw [hexit, List.append_nil]
  rfl

/-- Witness for `stop_input_before_run`: one `Input` event interleaves between
`StopInput` and `Run 5`; the joined stop-input block still precedes the
launch. -/
theorem stop_input_before_run_witness :
    (MainEvent.Exit ∉ ([MainEvent.Redraw] : List MainEvent) ∧
     MainEvent.Exit ∉ ([MainEvent.Input] : List MainEvent) ∧
     MainEvent.Exit ∉ ([] : List MainEvent) ∧
     MainEvent.Exit ∉ ([] : List MainEvent)) ∧
    mainLoop ([MainEvent.Redraw] ++ MainEvent.StopInput ::
        ([MainEvent.Input] ++ MainEvent.Run 5 ::
          ([] ++ MainEvent.StopRenderer ::
            ([] ++ MainEvent.Exit :: [MainEvent.Redraw])))) =
      ([MainEvent.Redraw] : List MainEvent).flatMap handleEvent ++
      ([Action.BroadcastUngrab, Action.BroadcastClearBuffer,
        Action.BroadcastStop, Action.JoinInputThreads] ++
       (([MainEvent.Input] : List MainEvent).flatMap handleEvent ++
        ([Action.RunDraft 5] ++
         (([] : List MainEvent).flatMap handleEvent ++
          ([Action.SendRenderExit, Action.JoinRenderer] ++
           ([] : List MainEvent).flatMap handleEvent))))) :=
  ⟨⟨by decide, by decide, by decide, by decide⟩,
    (stop_input_before_run [MainEvent.Redraw] [MainEvent.Input] [] []
        [MainEvent.Redraw] 5 (by decide) (by decide) (by decide) (by decide)).2⟩

end Tablet
